import Mathlib

/-!
Verification of the cache-coherent read service in src/main.py.

The program is a small web service with two record collections backed by a
relational store (SQLAlchemy) and a Redis read-through cache in front of the
"list all users" query.  The embedding below models the data, the cache
substrate (get with TTL, set, delete), the JSON serialization used for cache
values, and the four relevant handlers: list_users, create_user,
list_employees and on_startup.  Each handler is embedded as a pure function
from an application state (record store contents plus cache cell) and its
external inputs (current time, reachability of the record store) to a
response, a successor state and a trace of the external-effect events it
performs, in order.
-/

/-- External representation of a User record, as produced by list_users and
create_user in main.py: the dictionary with keys id, name, email
(main.py line 120 and line 146). -/
structure UserRec where
  id : Nat
  name : String
  email : String
deriving DecidableEq, Repr

/-- External representation of an Employee record, as produced by
list_employees in main.py line 160: the dictionary with keys id, name. -/
structure EmployeeRec where
  id : Nat
  name : String
deriving DecidableEq, Repr

/-- Cache expiry time in seconds, main.py line 54. -/
def CACHE_EXPIRY_SECONDS : Nat := 60

/-- The fixed cache key for the whole User collection, main.py lines 105
and 141. -/
def usersCacheKey : String := "users:all"

/-! ## JSON serialization of user lists (json.dumps in main.py line 123)

Python json.dumps with default arguments renders a list of dictionaries as
a bracketed sequence with separators comma-space and colon-space, strings
double-quoted with backslash escapes, ensure_ascii escaping of control and
non-ASCII characters, and integers in decimal.  The functions below produce
exactly those characters for the value list_users serializes. -/

/-- Decimal digit character for a digit value below ten. -/
def digitChar (d : Nat) : Char := Char.ofNat (48 + d)

/-- Hexadecimal digit character (lowercase), as in json.dumps unicode
escapes. -/
def hexChar (d : Nat) : Char :=
  if d < 10 then Char.ofNat (48 + d) else Char.ofNat (87 + d)

/-- The decimal digits of a natural number, most significant first, as
Python str renders an int. -/
def natChars (n : Nat) : List Char :=
  if n = 0 then ['0'] else (Nat.digits 10 n).reverse.map digitChar

/-- Four-character lowercase hexadecimal rendering of a code unit, used in
backslash-u escapes. -/
def hex4 (n : Nat) : List Char :=
  [hexChar (n / 4096 % 16), hexChar (n / 256 % 16), hexChar (n / 16 % 16), hexChar (n % 16)]

/-- The backslash-u escape sequence json.dumps emits for a character that
must be escaped numerically; code points beyond the basic multilingual
plane become a surrogate pair, as in CPython with ensure_ascii. -/
def uEscape (n : Nat) : List Char :=
  if n < 65536 then '\\' :: 'u' :: hex4 n
  else
    '\\' :: 'u' :: hex4 (55296 + (n - 65536) / 1024) ++ '\\' :: 'u' :: hex4 (56320 + (n - 65536) % 1024)

/-- How json.dumps renders one character inside a string literal: the
two-character shorthand escapes for quote, backslash and common control
characters, numeric escapes for other control or non-ASCII characters,
and the character itself otherwise. -/
def escapeChar (c : Char) : List Char :=
  if c = '"' then ['\\', '"']
  else if c = '\\' then ['\\', '\\']
  else if c = '\n' then ['\\', 'n']
  else if c = '\r' then ['\\', 'r']
  else if c = '\t' then ['\\', 't']
  else if c.toNat = 8 then ['\\', 'b']
  else if c.toNat = 12 then ['\\', 'f']
  else if c.toNat < 32 ∨ 127 ≤ c.toNat then uEscape c.toNat
  else [c]

/-- json.dumps escaping applied to a whole character sequence. -/
def escapeChars : List Char → List Char
  | [] => []
  | c :: cs => escapeChar c ++ escapeChars cs

/-- Literal opening of a serialized user object up to the id value:
open brace, quoted key id, colon, space. -/
def litIdKey : List Char := "\x7b\"id\": ".data

/-- Literal between the id value and the name value, including the opening
quote of the name string. -/
def litNameKey : List Char := ", \"name\": \"".data

/-- Literal between the closing quote of the name and the email value,
including the opening quote of the email string. -/
def litEmailKey : List Char := ", \"email\": \"".data

/-- Literal closing brace of a serialized user object. -/
def litClose : List Char := "\x7d".data

/-- The characters json.dumps produces for one user dictionary. -/
def dumpsUserChars (u : UserRec) : List Char :=
  litIdKey ++ natChars u.id ++ litNameKey ++ escapeChars u.name.data ++ ['"']
    ++ litEmailKey ++ escapeChars u.email.data ++ ['"'] ++ litClose

/-- The characters json.dumps produces for the elements of a list of user
dictionaries, joined by comma-space. -/
def dumpsListChars : List UserRec → List Char
  | [] => []
  | [u] => dumpsUserChars u
  | u :: us => dumpsUserChars u ++ ',' :: ' ' :: dumpsListChars us

/-- json.dumps of the users_data list built in main.py line 120, as called
in main.py line 123. -/
def json_dumps_users (us : List UserRec) : String :=
  String.mk ('[' :: dumpsListChars us ++ [']'])

/-! ## JSON deserialization (json.loads in main.py line 111)

json.loads is only ever applied to strings previously stored by
json.dumps at line 123, so it is modelled as a parser of exactly that
canonical rendering: a bracketed comma-space separated sequence of user
objects with keys id, name, email in that order, with string values
carrying two-character backslash escapes and backslash-u numeric escapes,
including surrogate pairs for characters beyond the basic multilingual
plane.  Inputs outside this grammar yield none, which models a decode
failure. -/

/-- Unescaping of a two-character backslash escape inside a JSON string;
backslash-u numeric escapes are handled separately inside parseBody. -/
def unescape (e : Char) : Option Char :=
  if e = '"' then some '"'
  else if e = '\\' then some '\\'
  else if e = '/' then some '/'
  else if e = 'n' then some '\n'
  else if e = 't' then some '\t'
  else if e = 'r' then some '\r'
  else if e = 'b' then some (Char.ofNat 8)
  else if e = 'f' then some (Char.ofNat 12)
  else none

/-- Numeric value of one hexadecimal digit character, accepting both the
lowercase digits json.dumps emits and uppercase ones. -/
def hexDigitVal (c : Char) : Option Nat :=
  if 48 ≤ c.toNat ∧ c.toNat ≤ 57 then some (c.toNat - 48)
  else if 97 ≤ c.toNat ∧ c.toNat ≤ 102 then some (c.toNat - 87)
  else if 65 ≤ c.toNat ∧ c.toNat ≤ 70 then some (c.toNat - 55)
  else none

/-- Numeric value of the four hexadecimal digits of a backslash-u escape. -/
def hex4Val (c1 c2 c3 c4 : Char) : Option Nat :=
  match hexDigitVal c1, hexDigitVal c2, hexDigitVal c3, hexDigitVal c4 with
  | some d1, some d2, some d3, some d4 => some (d1 * 4096 + d2 * 256 + d3 * 16 + d4)
  | _, _, _, _ => none

/-- Read the four hexadecimal digits of a backslash-u escape, returning
the code unit value and the remaining input. -/
def takeHex4 : List Char → Option (Nat × List Char)
  | c1 :: c2 :: c3 :: c4 :: rest =>
    match hex4Val c1 c2 c3 c4 with
    | some n => some (n, rest)
    | none => none
  | _ => none

/-- Read the low-surrogate escape that must follow a high surrogate with
value n, combining the pair into the character beyond the basic
multilingual plane it denotes. -/
def readLow (n : Nat) : List Char → Option (Char × List Char)
  | b1 :: b2 :: rest8 =>
    if b1 = '\\' ∧ b2 = 'u' then
      match takeHex4 rest8 with
      | none => none
      | some (m, rest12) =>
        if 56320 ≤ m ∧ m < 57344 then
          some (Char.ofNat (65536 + (n - 55296) * 1024 + (m - 56320)), rest12)
        else none
    else none
  | _ => none

/-- Decode one character of a JSON string body: a plain character, a
two-character backslash escape, a backslash-u numeric escape, or a
surrogate pair, as json.loads does on the output of json.dumps. -/
def readOne : List Char → Option (Char × List Char)
  | [] => none
  | c :: rest =>
    if c = '\\' then
      match rest with
      | [] => none
      | e :: rest2 =>
        if e = 'u' then
          match takeHex4 rest2 with
          | none => none
          | some (n, rest6) =>
            if n < 55296 ∨ 57344 ≤ n then some (Char.ofNat n, rest6)
            else if n < 56320 then readLow n rest6
            else none
        else
          match unescape e with
          | some u => some (u, rest2)
          | none => none
    else some (c, rest)

/-- Fuel-bounded worker for parseBody.  One unit of fuel is spent per
decoded character and every decoded character consumes at least one
input character, so fuel equal to the input length is always
sufficient. -/
def parseBodyF : Nat → List Char → Option (List Char × List Char)
  | 0, _ => none
  | _ + 1, [] => none
  | f + 1, c :: rest =>
    if c = '"' then some ([], rest)
    else
      match readOne (c :: rest) with
      | none => none
      | some (u, rest2) =>
        match parseBodyF f rest2 with
        | some (s, r) => some (u :: s, r)
        | none => none

/-- Parse the body of a JSON string literal after its opening quote,
consuming the closing quote and returning the unescaped content and the
remaining input. -/
def parseBody (l : List Char) : Option (List Char × List Char) :=
  parseBodyF l.length l

/-- Split off the maximal leading run of decimal digit characters. -/
def spanDigits : List Char → List Char × List Char
  | [] => ([], [])
  | c :: cs =>
    if c.isDigit then
      let p := spanDigits cs
      (c :: p.1, p.2)
    else ([], c :: cs)

/-- Numeric value of a sequence of decimal digit characters, most
significant first. -/
def digitsVal (cs : List Char) : Nat :=
  cs.foldl (fun a c => a * 10 + (c.toNat - 48)) 0

/-- Consume an expected literal character sequence from the front of the
input, returning the remainder, or none if the input does not start with
it. -/
def consumeLit : List Char → List Char → Option (List Char)
  | [], s => some s
  | _ :: _, [] => none
  | c :: p, x :: s => if x = c then consumeLit p s else none

/-- Parse one serialized user object and return the record and the
remaining input. -/
def parseUser (s : List Char) : Option (UserRec × List Char) :=
  match consumeLit litIdKey s with
  | none => none
  | some s1 =>
    let p := spanDigits s1
    if p.1 = [] then none
    else
      match consumeLit litNameKey p.2 with
      | none => none
      | some s2 =>
        match parseBody s2 with
        | none => none
        | some (nm, s3) =>
          match consumeLit litEmailKey s3 with
          | none => none
          | some s4 =>
            match parseBody s4 with
            | none => none
            | some (em, s5) =>
              match consumeLit litClose s5 with
              | none => none
              | some s6 => some (⟨digitsVal p.1, String.mk nm, String.mk em⟩, s6)

/-- Parse a nonempty comma-space separated sequence of user objects.  The
fuel argument bounds the number of elements and makes the recursion
structural. -/
def parseUsersAux : Nat → List Char → Option (List UserRec × List Char)
  | 0, _ => none
  | fuel + 1, s =>
    match parseUser s with
    | none => none
    | some (u, r) =>
      match r with
      | c1 :: c2 :: r2 =>
        if c1 = ',' then
          if c2 = ' ' then
            match parseUsersAux fuel r2 with
            | none => none
            | some (us, r3) => some (u :: us, r3)
          else none
        else some ([u], r)
      | r => some ([u], r)

/-- Character-level core of json.loads on the modelled grammar. -/
def json_loads_chars (l : List Char) : Option (List UserRec) :=
  match l with
  | [] => none
  | c :: body =>
    if c = '[' then
      if body = [']'] then some []
      else
        match parseUsersAux body.length body with
        | some (us, r) => if r = [']'] then some us else none
        | none => none
    else none

/-- json.loads as applied to cached strings in main.py line 111, modelled
on the canonical rendering produced by json_dumps_users. -/
def json_loads_users (s : String) : Option (List UserRec) :=
  json_loads_chars s.data

/-! ## The cache substrate (Redis), record store and application state -/

/-- The single cache cell Redis holds for the users key: either absent or a
stored string with its absolute expiry instant (write time plus TTL, as
set by the ex argument in main.py line 124). -/
structure CacheState where
  entry : Option (String × Nat)
deriving DecidableEq, Repr

/-- Redis GET with TTL semantics: the stored value is returned only
strictly before its expiry instant; afterwards the key is absent
(main.py line 108, and the expiry guarantee of the substrate). -/
def redis_get (c : CacheState) (now : Nat) : Option String :=
  match c.entry with
  | some (v, deadline) => if now < deadline then some v else none
  | none => none

/-- Redis SET with the ex expiry argument, main.py line 124: stores the
value with expiry instant now plus ttl. -/
def redis_set (_c : CacheState) (now ttl : Nat) (v : String) : CacheState :=
  ⟨some (v, now + ttl)⟩

/-- Redis DELETE, main.py line 142: removes the key whether or not it is
present. -/
def redis_delete (_c : CacheState) : CacheState := ⟨none⟩

/-- The cache read combined with the Python truthiness test of main.py
line 109: a missing key (None) and an empty string are both treated as a
miss. -/
def truthy_get (c : CacheState) (now : Nat) : Option String :=
  match redis_get c now with
  | some s => if s = "" then none else some s
  | none => none

/-- The record store contents: committed User rows, committed Employee
rows, and the next autoincrement id the store will assign to a User. -/
structure DB where
  users : List UserRec
  employees : List EmployeeRec
  nextUserId : Nat
deriving DecidableEq, Repr

/-- Whole-application state: record store plus the one cache cell. -/
structure AppState where
  db : DB
  cache : CacheState
deriving DecidableEq, Repr

/-- Whether the record store is reachable for the duration of a request;
an unreachable store makes the awaited query raise. -/
inductive StoreOutcome where
  | ok
  | unreachable
deriving DecidableEq, Repr

/-- Failures a request can surface: the record store unreachable, the
cached string failing to deserialize, or the email uniqueness constraint
rejecting an insert. -/
inductive ReqError where
  | storeUnreachable
  | decodeError
  | integrityError
deriving DecidableEq, Repr

/-- External-effect events a handler performs, recorded in program order. -/
inductive Event where
  | cacheGet (key : String)
  | cacheSet (key : String) (value : String) (ttl : Nat)
  | cacheDelete (key : String)
  | dbSelectUsers
  | dbSelectEmployees
  | dbInsert (name email : String)
  | dbRefresh (id : Nat)
deriving DecidableEq, Repr

instance {ε α : Type} [DecidableEq ε] [DecidableEq α] : DecidableEq (Except ε α)
  | Except.ok a, Except.ok b =>
    if h : a = b then isTrue (by rw [h]) else isFalse (by intro hh; cases hh; exact h rfl)
  | Except.ok _, Except.error _ => isFalse (by intro hh; cases hh)
  | Except.error _, Except.ok _ => isFalse (by intro hh; cases hh)
  | Except.error e, Except.error f =>
    if h : e = f then isTrue (by rw [h]) else isFalse (by intro hh; cases hh; exact h rfl)

/-- Outcome of one handler invocation: the response (or the error that
propagated), the successor application state, and the ordered trace of
external effects performed. -/
structure EndpointOut (α : Type) where
  response : Except ReqError α
  state : AppState
  events : List Event
deriving DecidableEq, Repr

/-! ## The handlers -/

/-- Embedding of list_users, main.py lines 100 to 128: read the fixed key
from the cache; on a truthy value deserialize and return it; otherwise
query the store for all users, build the external representations, store
the serialized list under the key with the 60 second expiry, and return
the fresh list.  A store failure on the miss path propagates before the
cache write is reached. -/
def list_users (st : AppState) (now : Nat) (store : StoreOutcome) : EndpointOut (List UserRec) :=
  match truthy_get st.cache now with
  | some cached_users_json =>
    match json_loads_users cached_users_json with
    | some v => ⟨Except.ok v, st, [Event.cacheGet usersCacheKey]⟩
    | none => ⟨Except.error ReqError.decodeError, st, [Event.cacheGet usersCacheKey]⟩
  | none =>
    match store with
    | StoreOutcome.unreachable =>
      ⟨Except.error ReqError.storeUnreachable, st,
        [Event.cacheGet usersCacheKey, Event.dbSelectUsers]⟩
    | StoreOutcome.ok =>
      let users_data := st.db.users
      let users_json := json_dumps_users users_data
      ⟨Except.ok users_data,
        { st with cache := redis_set st.cache now CACHE_EXPIRY_SECONDS users_json },
        [Event.cacheGet usersCacheKey, Event.dbSelectUsers,
          Event.cacheSet usersCacheKey users_json CACHE_EXPIRY_SECONDS]⟩

/-- Embedding of create_user, main.py lines 130 to 146, together with the
email uniqueness constraint the store enforces (main.py line 27): the
commit raises an integrity error when the email is already taken, in
which case the exception propagates before the cache delete is reached
and neither store nor cache changes.  On success the store assigns the
next id, the row is committed, the refresh fetches the generated id, the
fixed cache key is deleted, and the external representation of the new
record is returned. -/
def create_user (st : AppState) (name email : String) : EndpointOut UserRec :=
  if st.db.users.any (fun u => u.email == email) then
    ⟨Except.error ReqError.integrityError, st, [Event.dbInsert name email]⟩
  else
    ⟨Except.ok ⟨st.db.nextUserId, name, email⟩,
      ⟨⟨st.db.users ++ [⟨st.db.nextUserId, name, email⟩], st.db.employees,
          st.db.nextUserId + 1⟩,
        redis_delete st.cache⟩,
      [Event.dbInsert name email, Event.dbRefresh st.db.nextUserId,
        Event.cacheDelete usersCacheKey]⟩

/-- Embedding of list_employees, main.py lines 149 to 162: always query
the store for all employees and return their external representations;
the cache is never read or written. -/
def list_employees (st : AppState) (store : StoreOutcome) : EndpointOut (List EmployeeRec) :=
  match store with
  | StoreOutcome.unreachable =>
    ⟨Except.error ReqError.storeUnreachable, st, [Event.dbSelectEmployees]⟩
  | StoreOutcome.ok =>
    ⟨Except.ok st.db.employees, st, [Event.dbSelectEmployees]⟩

/-- Outcome of the startup handler: whether table creation ran, whether
the Redis ping succeeded, and whether the handler returned normally so
that startup completed. -/
structure StartupOut where
  tablesCreated : Bool
  redisConnected : Bool
  completed : Bool
deriving DecidableEq, Repr

/-- Whether the Redis ping at startup succeeds or raises a connection
error. -/
inductive PingOutcome where
  | ok
  | connectionError
deriving DecidableEq, Repr

/-- Embedding of on_startup, main.py lines 60 to 76: tables are created,
the Redis client is constructed, and the ping is attempted inside a try
block whose except clause catches the connection error and only prints
it (the raise on line 76 is commented out), so the handler returns
normally in both cases and startup completes. -/
def on_startup (ping : PingOutcome) : StartupOut :=
  match ping with
  | PingOutcome.ok => ⟨true, true, true⟩
  | PingOutcome.connectionError => ⟨true, false, true⟩

/-! ## Auxiliary predicates and concrete states used by the theorems -/

/-- The input does not start with a decimal digit. -/
def headNotDigit : List Char → Prop
  | [] => True
  | c :: _ => c.isDigit = false

/-- The input does not start with a comma. -/
def headNotComma : List Char → Prop
  | [] => True
  | c :: _ => c ≠ ','

/-- The characters of litNameKey after its leading comma. -/
def litNameKeyTail : List Char := " \"name\": \"".data

/-- An empty record store whose next generated user id is one. -/
def dbEmpty : DB := ⟨[], [], 1⟩

/-- A record store holding one committed user. -/
def dbAnn : DB := ⟨[⟨1, "Ann", "a@x.com"⟩], [], 2⟩

/-- Empty store, empty cache. -/
def stEmptyCache : AppState := ⟨dbEmpty, ⟨none⟩⟩

/-- Empty store, populated cache cell that expires at instant 100. -/
def stValidCache : AppState := ⟨dbEmpty, ⟨some ("[]", 100)⟩⟩

/-- One-user store, empty cache. -/
def stAnnNoCache : AppState := ⟨dbAnn, ⟨none⟩⟩

/-- One-user store, populated cache cell that expires at instant 100. -/
def stAnnCached : AppState := ⟨dbAnn, ⟨some ("old", 100)⟩⟩

/-! ## Serialization and parsing lemmas -/

theorem consumeLit_append (p s : List Char) : consumeLit p (p ++ s) = some s := by
  induction p with
  | nil => rfl
  | cons c p ih => simp [consumeLit, ih]

theorem hexDigitVal_hexChar (d : Nat) (h : d < 16) : hexDigitVal (hexChar d) = some d := by
  interval_cases d <;> decide

theorem hex4Val_hex4 (n : Nat) (h : n < 65536) :
    hex4Val (hexChar (n / 4096 % 16)) (hexChar (n / 256 % 16)) (hexChar (n / 16 % 16))
      (hexChar (n % 16)) = some n := by
  have h1 := hexDigitVal_hexChar (n / 4096 % 16) (Nat.mod_lt _ (by norm_num))
  have h2 := hexDigitVal_hexChar (n / 256 % 16) (Nat.mod_lt _ (by norm_num))
  have h3 := hexDigitVal_hexChar (n / 16 % 16) (Nat.mod_lt _ (by norm_num))
  have h4 := hexDigitVal_hexChar (n % 16) (Nat.mod_lt _ (by norm_num))
  unfold hex4Val
  rw [h1, h2, h3, h4]
  have harith : n / 4096 % 16 * 4096 + n / 256 % 16 * 256 + n / 16 % 16 * 16 + n % 16 = n := by
    omega
  simp [harith]

theorem escapeChar_len (c : Char) : 1 ≤ (escapeChar c).length := by
  unfold escapeChar uEscape
  split_ifs <;> simp [hex4]

theorem escapeChars_len (l : List Char) : l.length ≤ (escapeChars l).length := by
  induction l with
  | nil => simp [escapeChars]
  | cons c cs ih =>
    have h1 := escapeChar_len c
    simp only [escapeChars, List.length_append, List.length_cons]
    omega

theorem takeHex4_hex4 (n : Nat) (h : n < 65536) (t : List Char) :
    takeHex4 (hex4 n ++ t) = some (n, t) := by
  simp only [hex4, List.cons_append, List.nil_append]
  simp [takeHex4, hex4Val_hex4 n h]

theorem readOne_plain (c : Char) (t : List Char) (hb : c ≠ '\\') :
    readOne (c :: t) = some (c, t) := by
  rw [readOne.eq_def]
  simp [hb]

theorem readOne_esc2 (e c : Char) (t : List Char) (hne : e ≠ 'u')
    (hu : unescape e = some c) : readOne ('\\' :: e :: t) = some (c, t) := by
  rw [readOne.eq_def]
  simp [hne, hu]

theorem readOne_escU1 (n : Nat) (t : List Char)
    (hrange : n < 55296 ∨ 57344 ≤ n) (hlt : n < 65536) :
    readOne ('\\' :: 'u' :: (hex4 n ++ t)) = some (Char.ofNat n, t) := by
  rw [readOne.eq_def]
  simp [takeHex4_hex4 n hlt, hrange]

theorem readLow_hex (n m : Nat) (t : List Char)
    (h1 : 56320 ≤ m) (h2 : m < 57344) (hm : m < 65536) :
    readLow n ('\\' :: 'u' :: (hex4 m ++ t)) =
      some (Char.ofNat (65536 + (n - 55296) * 1024 + (m - 56320)), t) := by
  rw [readLow.eq_def]
  simp [takeHex4_hex4 m hm, h1, h2]

theorem readOne_pair (n : Nat) (t : List Char)
    (hge : 65536 ≤ n) (hlt : n < 1114112) :
    readOne ('\\' :: 'u' :: (hex4 (55296 + (n - 65536) / 1024) ++
      ('\\' :: 'u' :: (hex4 (56320 + (n - 65536) % 1024) ++ t)))) =
      some (Char.ofNat n, t) := by
  have hhi : 55296 + (n - 65536) / 1024 < 65536 := by omega
  have hlo1 : 56320 ≤ 56320 + (n - 65536) % 1024 := by omega
  have hlo2 : 56320 + (n - 65536) % 1024 < 57344 := by omega
  have hloB : 56320 + (n - 65536) % 1024 < 65536 := by omega
  have hni : ¬(55296 + (n - 65536) / 1024 < 55296 ∨
      57344 ≤ 55296 + (n - 65536) / 1024) := by omega
  have hni2 : ¬57344 ≤ 55296 + (n - 65536) / 1024 := by omega
  have hhi2 : 55296 + (n - 65536) / 1024 < 56320 := by omega
  have hrl := readLow_hex (55296 + (n - 65536) / 1024) (56320 + (n - 65536) % 1024) t
    hlo1 hlo2 hloB
  have harith : 65536 + (55296 + (n - 65536) / 1024 - 55296) * 1024 +
      (56320 + (n - 65536) % 1024 - 56320) = n := by omega
  have harith2 : 65536 + (n - 65536) / 1024 * 1024 + (n - 65536) % 1024 = n := by omega
  rw [readOne.eq_def]
  simp [takeHex4_hex4 _ hhi, hni, hni2, hhi2, hrl, harith, harith2]

theorem parseBodyF_cons (c : Char) (l2 : List Char) (u : Char) (t s r : List Char)
    (f : Nat) (hq : c ≠ '"') (hr : readOne (c :: l2) = some (u, t))
    (ht : parseBodyF f t = some (s, r)) :
    parseBodyF (f + 1) (c :: l2) = some (u :: s, r) := by
  rw [parseBodyF.eq_def]
  simp [hq, hr, ht]

theorem parseBodyF_escape (s r : List Char) (fuel : Nat) (hf : s.length < fuel) :
    parseBodyF fuel (escapeChars s ++ '"' :: r) = some (s, r) := by
  induction s generalizing fuel with
  | nil =>
    cases fuel with
    | zero => simp at hf
    | succ f => rw [parseBodyF.eq_def]; simp [escapeChars]
  | cons c cs ih =>
    cases fuel with
    | zero => simp at hf
    | succ f =>
      have hcs : cs.length < f := by simp at hf; omega
      have ihf := ih f hcs
      have hval : c.toNat < 55296 ∨ (57343 < c.toNat ∧ c.toNat < 1114112) := c.valid
      simp only [escapeChars, List.append_assoc]
      by_cases hq : c = '"'
      · subst hq
        rw [show escapeChar '"' = ['\\', '"'] from by decide]
        exact parseBodyF_cons '\\' _ '"' _ cs r f (by decide)
          (readOne_esc2 '"' '"' _ (by decide) (by decide)) ihf
      by_cases hb : c = '\\'
      · subst hb
        rw [show escapeChar '\\' = ['\\', '\\'] from by decide]
        exact parseBodyF_cons '\\' _ '\\' _ cs r f (by decide)
          (readOne_esc2 '\\' '\\' _ (by decide) (by decide)) ihf
      by_cases hn : c = '\n'
      · subst hn
        rw [show escapeChar '\n' = ['\\', 'n'] from by decide]
        exact parseBodyF_cons '\\' _ '\n' _ cs r f (by decide)
          (readOne_esc2 'n' '\n' _ (by decide) (by decide)) ihf
      by_cases hr : c = '\r'
      · subst hr
        rw [show escapeChar '\r' = ['\\', 'r'] from by decide]
        exact parseBodyF_cons '\\' _ '\r' _ cs r f (by decide)
          (readOne_esc2 'r' '\r' _ (by decide) (by decide)) ihf
      by_cases ht : c = '\t'
      · subst ht
        rw [show escapeChar '\t' = ['\\', 't'] from by decide]
        exact parseBodyF_cons '\\' _ '\t' _ cs r f (by decide)
          (readOne_esc2 't' '\t' _ (by decide) (by decide)) ihf
      by_cases h8 : c.toNat = 8
      · have hc : c = Char.ofNat 8 := by rw [← h8]; exact (Char.ofNat_toNat c).symm
        subst hc
        rw [show escapeChar (Char.ofNat 8) = ['\\', 'b'] from by decide]
        exact parseBodyF_cons '\\' _ (Char.ofNat 8) _ cs r f (by decide)
          (readOne_esc2 'b' (Char.ofNat 8) _ (by decide) (by decide)) ihf
      by_cases h12 : c.toNat = 12
      · have hc : c = Char.ofNat 12 := by rw [← h12]; exact (Char.ofNat_toNat c).symm
        subst hc
        rw [show escapeChar (Char.ofNat 12) = ['\\', 'f'] from by decide]
        exact parseBodyF_cons '\\' _ (Char.ofNat 12) _ cs r f (by decide)
          (readOne_esc2 'f' (Char.ofNat 12) _ (by decide) (by decide)) ihf
      by_cases hrange : c.toNat < 32 ∨ 127 ≤ c.toNat
      · have hesc : escapeChar c = uEscape c.toNat := by
          unfold escapeChar
          rw [if_neg hq, if_neg hb, if_neg hn, if_neg hr, if_neg ht, if_neg h8, if_neg h12,
            if_pos hrange]
        rw [hesc]
        by_cases hbig : c.toNat < 65536
        · rw [show uEscape c.toNat = '\\' :: 'u' :: hex4 c.toNat from by
            unfold uEscape; rw [if_pos hbig]]
          have hrange2 : c.toNat < 55296 ∨ 57344 ≤ c.toNat := by omega
          have hro := readOne_escU1 c.toNat (escapeChars cs ++ '"' :: r) hrange2 hbig
          rw [Char.ofNat_toNat] at hro
          exact parseBodyF_cons '\\' _ c _ cs r f (by decide) hro ihf
        · have hge : 65536 ≤ c.toNat := by omega
          have hlt : c.toNat < 1114112 := by omega
          rw [show uEscape c.toNat = '\\' :: 'u' :: hex4 (55296 + (c.toNat - 65536) / 1024) ++
              '\\' :: 'u' :: hex4 (56320 + (c.toNat - 65536) % 1024) from by
            unfold uEscape; rw [if_neg hbig]]
          have hro := readOne_pair c.toNat (escapeChars cs ++ '"' :: r) hge hlt
          rw [Char.ofNat_toNat] at hro
          exact parseBodyF_cons '\\' _ c _ cs r f (by decide) hro ihf
      · have hesc : escapeChar c = [c] := by
          unfold escapeChar
          rw [if_neg hq, if_neg hb, if_neg hn, if_neg hr, if_neg ht, if_neg h8, if_neg h12,
            if_neg hrange]
        rw [hesc]
        exact parseBodyF_cons c _ c _ cs r f hq (readOne_plain c _ hb) ihf

theorem parseBody_escape (s r : List Char) :
    parseBody (escapeChars s ++ '"' :: r) = some (s, r) := by
  unfold parseBody
  apply parseBodyF_escape
  have h1 := escapeChars_len s
  simp only [List.length_append, List.length_cons]
  omega

theorem digitChar_isDigit (d : Nat) (h : d < 10) : (digitChar d).isDigit = true := by
  interval_cases d <;> decide

theorem digitChar_toNat (d : Nat) (h : d < 10) : (digitChar d).toNat = 48 + d := by
  interval_cases d <;> decide

theorem natChars_digits (n : Nat) : ∀ c ∈ natChars n, c.isDigit = true := by
  intro c hc
  unfold natChars at hc
  split at hc
  · simp at hc; subst hc; decide
  · simp only [List.mem_map, List.mem_reverse] at hc
    obtain ⟨d, hd, rfl⟩ := hc
    exact digitChar_isDigit d (Nat.digits_lt_base (by norm_num) hd)

theorem natChars_ne_nil (n : Nat) : natChars n ≠ [] := by
  unfold natChars
  split
  · simp
  · intro hcon
    rw [List.map_eq_nil_iff, List.reverse_eq_nil_iff] at hcon
    exact (Nat.digits_ne_nil_iff_ne_zero.mpr (by assumption)) hcon

theorem digitsVal_rev_map (L : List Nat) (h : ∀ d ∈ L, d < 10) :
    digitsVal ((L.map digitChar).reverse) = Nat.ofDigits 10 L := by
  induction L with
  | nil => simp [digitsVal, Nat.ofDigits]
  | cons d L ih =>
    have hd : d < 10 := h d (by simp)
    have ihv := ih (fun x hx => h x (by simp [hx]))
    unfold digitsVal at ihv ⊢
    simp only [List.map_cons, List.reverse_cons]
    rw [List.foldl_append, ihv]
    simp only [List.foldl_cons, List.foldl_nil, digitChar_toNat d hd, Nat.ofDigits_cons]
    omega

theorem digitsVal_natChars (n : Nat) : digitsVal (natChars n) = n := by
  unfold natChars
  split
  · rename_i h0
    subst h0
    decide
  · rw [List.map_reverse, digitsVal_rev_map _ (fun d hd => Nat.digits_lt_base (by norm_num) hd)]
    exact Nat.ofDigits_digits 10 n

theorem spanDigits_append (ds : List Char) (c : Char) (r : List Char)
    (hds : ∀ x ∈ ds, x.isDigit = true) (hc : c.isDigit = false) :
    spanDigits (ds ++ c :: r) = (ds, c :: r) := by
  induction ds with
  | nil => simp [spanDigits, hc]
  | cons d ds ih =>
    have hd := hds d (by simp)
    have ih2 := ih (fun x hx => hds x (by simp [hx]))
    simp [spanDigits, hd, List.append_eq, ih2]

theorem litNameKey_eq : litNameKey = ',' :: litNameKeyTail := rfl

theorem consumeLit_nameKey (y : List Char) :
    consumeLit (',' :: litNameKeyTail) (',' :: (litNameKeyTail ++ y)) = some y := by
  show consumeLit (',' :: litNameKeyTail) ((',' :: litNameKeyTail) ++ y) = some y
  exact consumeLit_append _ _

theorem parseUser_dumps (u : UserRec) (rest : List Char) :
    parseUser (dumpsUserChars u ++ rest) = some (u, rest) := by
  have hcomma : (','.isDigit) = false := by decide
  have hne := natChars_ne_nil u.id
  have hspan := spanDigits_append (natChars u.id) ','
    (litNameKeyTail ++ (escapeChars u.name.data ++ '"' :: (litEmailKey ++
      (escapeChars u.email.data ++ '"' :: (litClose ++ rest)))))
    (natChars_digits u.id) hcomma
  have hb1 := parseBody_escape u.name.data
    (litEmailKey ++ (escapeChars u.email.data ++ '"' :: (litClose ++ rest)))
  have hb2 := parseBody_escape u.email.data (litClose ++ rest)
  unfold parseUser dumpsUserChars
  rw [litNameKey_eq]
  simp only [List.append_assoc, List.cons_append, List.nil_append, consumeLit_append,
    hspan, hne, ne_eq, not_false_eq_true, if_false, consumeLit_nameKey, hb1, hb2,
    consumeLit_append, digitsVal_natChars]

theorem dumpsUserChars_len (u : UserRec) : 1 ≤ (dumpsUserChars u).length := by
  have h : litIdKey.length = 7 := by decide
  unfold dumpsUserChars
  simp only [List.length_append]
  omega

theorem dumpsListChars_len (us : List UserRec) : us.length ≤ (dumpsListChars us).length := by
  induction us with
  | nil => simp [dumpsListChars]
  | cons u us ih =>
    cases us with
    | nil => simpa [dumpsListChars] using dumpsUserChars_len u
    | cons v vs =>
      have h1 := dumpsUserChars_len u
      simp only [dumpsListChars, List.length_append, List.length_cons] at ih ⊢
      omega

theorem parseUsersAux_dumps (us : List UserRec) (fuel : Nat) (rest : List Char)
    (hne : us ≠ []) (hfuel : us.length ≤ fuel) (hr : headNotComma rest) :
    parseUsersAux fuel (dumpsListChars us ++ rest) = some (us, rest) := by
  induction us generalizing fuel rest with
  | nil => exact absurd rfl hne
  | cons u us ih =>
    cases fuel with
    | zero => simp at hfuel
    | succ f =>
      cases us with
      | nil =>
        simp only [dumpsListChars, parseUsersAux, parseUser_dumps u rest]
        cases rest with
        | nil => rfl
        | cons c1 r1 =>
          cases r1 with
          | nil => rfl
          | cons c2 r2 =>
            have hc1 : c1 ≠ ',' := hr
            simp [hc1]
      | cons v vs =>
        have hlen : (v :: vs).length ≤ f := by simp at hfuel ⊢; omega
        have ih2 := ih f rest (by simp) hlen hr
        simp only [dumpsListChars, List.append_assoc, List.cons_append]
        simp only [parseUsersAux, parseUser_dumps u _]
        simp [ih2]

theorem loads_dumps (us : List UserRec) :
    json_loads_users (json_dumps_users us) = some us := by
  cases us with
  | nil => rfl
  | cons u vs =>
    show json_loads_chars ('[' :: (dumpsListChars (u :: vs) ++ [']'])) = some (u :: vs)
    have hlen : vs.length + 1 ≤ (dumpsListChars (u :: vs)).length := by
      simpa using dumpsListChars_len (u :: vs)
    have hbody : dumpsListChars (u :: vs) ++ [']'] ≠ [']'] := by
      intro hcon
      have h3 := congrArg List.length hcon
      simp only [List.length_append, List.length_cons, List.length_nil] at h3
      omega
    have hfuel : (u :: vs).length ≤ (dumpsListChars (u :: vs) ++ [']']).length := by
      simp only [List.length_append, List.length_cons, List.length_nil]
      omega
    have hp := parseUsersAux_dumps (u :: vs) (dumpsListChars (u :: vs) ++ [']']).length
      [']'] (by simp) hfuel (by show (']' : Char) ≠ ','; decide)
    simp only [json_loads_chars, if_pos rfl, if_neg hbody, hp]
    simp

theorem json_dumps_users_ne_empty (us : List UserRec) : json_dumps_users us ≠ "" := by
  intro hcon
  have h2 := congrArg String.data hcon
  simp [json_dumps_users] at h2

/-! ## Handler characterization lemmas -/

theorem list_users_miss (st : AppState) (now : Nat) (h : truthy_get st.cache now = none) :
    list_users st now StoreOutcome.ok =
      ⟨Except.ok st.db.users,
        ⟨st.db, ⟨some (json_dumps_users st.db.users, now + CACHE_EXPIRY_SECONDS)⟩⟩,
        [Event.cacheGet usersCacheKey, Event.dbSelectUsers,
          Event.cacheSet usersCacheKey (json_dumps_users st.db.users) CACHE_EXPIRY_SECONDS]⟩ := by
  unfold list_users
  rw [h]
  rfl

theorem list_users_unreachable (st : AppState) (now : Nat)
    (h : truthy_get st.cache now = none) :
    list_users st now StoreOutcome.unreachable =
      ⟨Except.error ReqError.storeUnreachable, st,
        [Event.cacheGet usersCacheKey, Event.dbSelectUsers]⟩ := by
  unfold list_users
  rw [h]

theorem list_users_hit (st : AppState) (now : Nat) (store : StoreOutcome) (s : String)
    (v : List UserRec) (h : truthy_get st.cache now = some s)
    (hv : json_loads_users s = some v) :
    list_users st now store = ⟨Except.ok v, st, [Event.cacheGet usersCacheKey]⟩ := by
  unfold list_users
  rw [h]
  dsimp only
  rw [hv]

theorem redis_get_expired (v : String) (d now : Nat) (h : d ≤ now) :
    redis_get ⟨some (v, d)⟩ now = none := by
  have h2 : ¬now < d := by omega
  simp [redis_get, h2]

theorem truthy_get_expired (v : String) (d now : Nat) (h : d ≤ now) :
    truthy_get ⟨some (v, d)⟩ now = none := by
  unfold truthy_get
  rw [redis_get_expired v d now h]

theorem truthy_get_fresh (v : String) (d now : Nat) (h1 : now < d) (h2 : v ≠ "") :
    truthy_get ⟨some (v, d)⟩ now = some v := by
  simp [truthy_get, redis_get, h1, h2]

theorem create_user_ok_inv (st : AppState) (name email : String) (u : UserRec)
    (st' : AppState) (evs : List Event)
    (h : create_user st name email = ⟨Except.ok u, st', evs⟩) :
    u = ⟨st.db.nextUserId, name, email⟩ ∧
    st' = ⟨⟨st.db.users ++ [u], st.db.employees, st.db.nextUserId + 1⟩, ⟨none⟩⟩ ∧
    evs = [Event.dbInsert name email, Event.dbRefresh st.db.nextUserId,
      Event.cacheDelete usersCacheKey] := by
  unfold create_user at h
  split at h
  · simp only [EndpointOut.mk.injEq] at h
    exact absurd h.1 (by simp)
  · simp only [EndpointOut.mk.injEq, Except.ok.injEq] at h
    obtain ⟨hu, hst, hevs⟩ := h
    subst hu
    refine ⟨rfl, ?_, hevs.symm⟩
    rw [← hst]
    rfl

/-! ## Claim theorems -/

/-- C3: a CreateUser call whose insert hits the email uniqueness
constraint surfaces a write failure (the integrity error propagates) and
performs no cache mutation: the application state is unchanged and no
cache-delete effect is performed. -/
theorem duplicate_email_leaves_cache_untouched (st : AppState) (name email : String)
    (h : (st.db.users.any fun u => u.email == email) = true) :
    (create_user st name email).response = Except.error ReqError.integrityError ∧
    (create_user st name email).state = st ∧
    ∀ k, Event.cacheDelete k ∉ (create_user st name email).events := by
  unfold create_user
  rw [h]
  simp

theorem duplicate_email_witness :
    (create_user stAnnCached "Another" "a@x.com").response =
      Except.error ReqError.integrityError ∧
    (create_user stAnnCached "Another" "a@x.com").state = stAnnCached ∧
    ∀ k, Event.cacheDelete k ∉ (create_user stAnnCached "Another" "a@x.com").events :=
  duplicate_email_leaves_cache_untouched stAnnCached "Another" "a@x.com" (by decide)

/-- C4 counterexample: the claim asserts that a failed Redis ping during
the startup handler is fatal, so that startup does not complete.  In
main.py lines 70 to 76 the connection error is caught by the except
clause and only printed (the raise is commented out), so the embedded
handler completes even when the ping fails. -/
theorem startup_completes_on_ping_failure_cex :
    (on_startup PingOutcome.connectionError).completed = true := rfl

/-- C4 (amended): if the cache substrate is unavailable during the
startup check, the connection error is caught and logged, the Redis
connection is not established, and startup nevertheless completes
successfully; the failure is not fatal. -/
theorem startup_ping_failure_nonfatal :
    (on_startup PingOutcome.connectionError).completed = true ∧
    (on_startup PingOutcome.connectionError).redisConnected = false ∧
    (on_startup PingOutcome.ok).completed = true :=
  ⟨rfl, rfl, rfl⟩

/-- C5: a ListUsers call on the cache-miss path whose record store query
fails surfaces the failure, leaves the application state unchanged, and
performs no cache-set effect, so the failure is not cached. -/
theorem store_unreachable_miss_writes_no_cache (st : AppState) (now : Nat)
    (h : truthy_get st.cache now = none) :
    (list_users st now StoreOutcome.unreachable).response =
      Except.error ReqError.storeUnreachable ∧
    (list_users st now StoreOutcome.unreachable).state = st ∧
    ∀ k v ttl, Event.cacheSet k v ttl ∉ (list_users st now StoreOutcome.unreachable).events := by
  rw [list_users_unreachable st now h]
  simp

theorem store_unreachable_witness :
    (list_users stEmptyCache 0 StoreOutcome.unreachable).response =
      Except.error ReqError.storeUnreachable ∧
    (list_users stEmptyCache 0 StoreOutcome.unreachable).state = stEmptyCache ∧
    ∀ k v ttl, Event.cacheSet k v ttl ∉
      (list_users stEmptyCache 0 StoreOutcome.unreachable).events :=
  store_unreachable_miss_writes_no_cache stEmptyCache 0 (by decide)

/-- C7: the invalidation operation is idempotent: deleting the fixed key
from an empty cache does not fail and leaves the cache empty, and every
successful create-user write maps both a valid and an empty cache state
to the empty cache state. -/
theorem invalidation_idempotent (st : AppState) (name email : String) (u : UserRec)
    (st' : AppState) (evs : List Event)
    (h : create_user st name email = ⟨Except.ok u, st', evs⟩) :
    redis_delete ⟨none⟩ = ⟨none⟩ ∧ redis_delete st.cache = ⟨none⟩ ∧ st'.cache = ⟨none⟩ := by
  obtain ⟨hu, hst, hevs⟩ := create_user_ok_inv st name email u st' evs h
  exact ⟨rfl, rfl, by rw [hst]⟩

theorem invalidation_idempotent_witness :
    redis_delete ⟨none⟩ = ⟨none⟩ ∧ redis_delete stValidCache.cache = ⟨none⟩ ∧
      stAnnNoCache.cache = ⟨none⟩ :=
  invalidation_idempotent stValidCache "Ann" "a@x.com" ⟨1, "Ann", "a@x.com"⟩ stAnnNoCache
    [Event.dbInsert "Ann" "a@x.com", Event.dbRefresh 1, Event.cacheDelete usersCacheKey]
    (by decide)

/-- C8: ListEmployees reads the record store directly and returns the
employee records; its response does not depend on the cache state, the
cache cell is left unchanged, and its effect trace contains exactly the
employee query, never a cache read or write. -/
theorem list_employees_uncached_independent (db : DB) (c c' : CacheState)
    (store : StoreOutcome) :
    (list_employees ⟨db, c⟩ store).response = (list_employees ⟨db, c'⟩ store).response ∧
    (list_employees ⟨db, c⟩ StoreOutcome.ok).response = Except.ok db.employees ∧
    (list_employees ⟨db, c⟩ store).state = ⟨db, c⟩ ∧
    (list_employees ⟨db, c⟩ store).events = [Event.dbSelectEmployees] := by
  cases store <;> simp [list_employees]

/-- C9: a successful CreateUser performs, in order, the store insert, the
refresh that obtains the store-generated id, and the unconditional
delete of the fixed cache key, and it returns the created record with
the store-generated id; the store gains exactly the new row. -/
theorem create_user_order_and_result (st : AppState) (name email : String) (u : UserRec)
    (st' : AppState) (evs : List Event)
    (h : create_user st name email = ⟨Except.ok u, st', evs⟩) :
    evs = [Event.dbInsert name email, Event.dbRefresh u.id,
      Event.cacheDelete usersCacheKey] ∧
    u = ⟨st.db.nextUserId, name, email⟩ ∧
    st'.db.users = st.db.users ++ [u] ∧
    st'.cache = ⟨none⟩ := by
  obtain ⟨hu, hst, hevs⟩ := create_user_ok_inv st name email u st' evs h
  subst hu
  exact ⟨by rw [hevs], rfl, by rw [hst], by rw [hst]⟩

theorem create_user_order_witness :
    [Event.dbInsert "Ann" "a@x.com", Event.dbRefresh 1, Event.cacheDelete usersCacheKey] =
      [Event.dbInsert "Ann" "a@x.com", Event.dbRefresh (UserRec.mk 1 "Ann" "a@x.com").id,
        Event.cacheDelete usersCacheKey] ∧
    UserRec.mk 1 "Ann" "a@x.com" = ⟨stValidCache.db.nextUserId, "Ann", "a@x.com"⟩ ∧
    stAnnNoCache.db.users = stValidCache.db.users ++ [UserRec.mk 1 "Ann" "a@x.com"] ∧
    stAnnNoCache.cache = ⟨none⟩ :=
  create_user_order_and_result stValidCache "Ann" "a@x.com" ⟨1, "Ann", "a@x.com"⟩
    stAnnNoCache [Event.dbInsert "Ann" "a@x.com", Event.dbRefresh 1,
      Event.cacheDelete usersCacheKey] (by decide)

/-- C1: after a successful CreateUser, the next ListUsers call (at any
time, sequentially) finds the cache key absent, re-fetches from the
record store, and its result is the fresh store contents, which include
the newly created record; the pre-write snapshot cannot be served
because the cache read misses. -/
theorem create_then_list_users_sees_new_record (st : AppState) (name email : String)
    (now : Nat) (u : UserRec) (st' : AppState) (evs : List Event)
    (h : create_user st name email = ⟨Except.ok u, st', evs⟩) :
    truthy_get st'.cache now = none ∧
    Event.dbSelectUsers ∈ (list_users st' now StoreOutcome.ok).events ∧
    (list_users st' now StoreOutcome.ok).response = Except.ok st'.db.users ∧
    u ∈ st'.db.users := by
  obtain ⟨hu, hst, hevs⟩ := create_user_ok_inv st name email u st' evs h
  have hmiss : truthy_get st'.cache now = none := by rw [hst]; rfl
  have h1 := list_users_miss st' now hmiss
  refine ⟨hmiss, by rw [h1]; simp, by rw [h1], ?_⟩
  rw [hst]
  simp

theorem create_then_list_witness :
    truthy_get stAnnNoCache.cache 5 = none ∧
    Event.dbSelectUsers ∈ (list_users stAnnNoCache 5 StoreOutcome.ok).events ∧
    (list_users stAnnNoCache 5 StoreOutcome.ok).response = Except.ok stAnnNoCache.db.users ∧
    UserRec.mk 1 "Ann" "a@x.com" ∈ stAnnNoCache.db.users :=
  create_then_list_users_sees_new_record stValidCache "Ann" "a@x.com" 5
    ⟨1, "Ann", "a@x.com"⟩ stAnnNoCache [Event.dbInsert "Ann" "a@x.com",
      Event.dbRefresh 1, Event.cacheDelete usersCacheKey] (by decide)

/-- C6: a cache fill on a ListUsers miss stores the serialized snapshot
under the fixed key with a time to live of exactly sixty seconds, the
filled cell carries the expiry instant fill-time plus TTL, and at any
time at least TTL after the fill the key is absent and a ListUsers call
treats it as a miss, querying the store again. -/
theorem cache_fill_ttl_sixty_and_expiry (st : AppState) (t : Nat)
    (h : truthy_get st.cache t = none) :
    CACHE_EXPIRY_SECONDS = 60 ∧
    Event.cacheSet usersCacheKey (json_dumps_users st.db.users) CACHE_EXPIRY_SECONDS ∈
      (list_users st t StoreOutcome.ok).events ∧
    (list_users st t StoreOutcome.ok).state.cache =
      ⟨some (json_dumps_users st.db.users, t + CACHE_EXPIRY_SECONDS)⟩ ∧
    ∀ t2 store2, t + CACHE_EXPIRY_SECONDS ≤ t2 →
      redis_get (list_users st t StoreOutcome.ok).state.cache t2 = none ∧
      Event.dbSelectUsers ∈
        (list_users (list_users st t StoreOutcome.ok).state t2 store2).events := by
  have h1 := list_users_miss st t h
  have hstate : (list_users st t StoreOutcome.ok).state =
      ⟨st.db, ⟨some (json_dumps_users st.db.users, t + CACHE_EXPIRY_SECONDS)⟩⟩ := by
    rw [h1]
  refine ⟨rfl, by rw [h1]; simp, by rw [hstate], ?_⟩
  intro t2 store2 ht2
  have hexp := redis_get_expired (json_dumps_users st.db.users)
    (t + CACHE_EXPIRY_SECONDS) t2 ht2
  have hmiss2 : truthy_get
      (AppState.mk st.db ⟨some (json_dumps_users st.db.users,
        t + CACHE_EXPIRY_SECONDS)⟩).cache t2 = none :=
    truthy_get_expired _ _ _ ht2
  refine ⟨by rw [hstate]; exact hexp, ?_⟩
  rw [hstate]
  cases store2
  · rw [list_users_miss _ t2 hmiss2]; simp
  · rw [list_users_unreachable _ t2 hmiss2]; simp

theorem cache_fill_ttl_witness :
    CACHE_EXPIRY_SECONDS = 60 ∧
    Event.cacheSet usersCacheKey (json_dumps_users stEmptyCache.db.users)
      CACHE_EXPIRY_SECONDS ∈ (list_users stEmptyCache 0 StoreOutcome.ok).events ∧
    (list_users stEmptyCache 0 StoreOutcome.ok).state.cache =
      ⟨some (json_dumps_users stEmptyCache.db.users, 0 + CACHE_EXPIRY_SECONDS)⟩ ∧
    ∀ t2 store2, 0 + CACHE_EXPIRY_SECONDS ≤ t2 →
      redis_get (list_users stEmptyCache 0 StoreOutcome.ok).state.cache t2 = none ∧
      Event.dbSelectUsers ∈
        (list_users (list_users stEmptyCache 0 StoreOutcome.ok).state t2 store2).events :=
  cache_fill_ttl_sixty_and_expiry stEmptyCache 0 (by decide)

/-- C2: after a ListUsers miss fills the cache, a second ListUsers call
within the TTL window and with no intervening invalidation reads back
exactly the stored snapshot, returns its deserialization verbatim,
which equals the response of the first call byte for byte, performs no
record store query whatever the store reachability, and leaves the
state unchanged. -/
theorem cache_hit_fidelity (st : AppState) (t1 t2 : Nat) (store2 : StoreOutcome)
    (hmiss : truthy_get st.cache t1 = none)
    (hfresh : t2 < t1 + CACHE_EXPIRY_SECONDS) :
    truthy_get (list_users st t1 StoreOutcome.ok).state.cache t2 =
      some (json_dumps_users st.db.users) ∧
    json_loads_users (json_dumps_users st.db.users) = some st.db.users ∧
    (list_users (list_users st t1 StoreOutcome.ok).state t2 store2).response =
      Except.ok st.db.users ∧
    (list_users (list_users st t1 StoreOutcome.ok).state t2 store2).response =
      (list_users st t1 StoreOutcome.ok).response ∧
    Event.dbSelectUsers ∉
      (list_users (list_users st t1 StoreOutcome.ok).state t2 store2).events ∧
    (list_users (list_users st t1 StoreOutcome.ok).state t2 store2).state =
      (list_users st t1 StoreOutcome.ok).state := by
  have h1 := list_users_miss st t1 hmiss
  have hstate : (list_users st t1 StoreOutcome.ok).state =
      ⟨st.db, ⟨some (json_dumps_users st.db.users, t1 + CACHE_EXPIRY_SECONDS)⟩⟩ := by
    rw [h1]
  have hresp1 : (list_users st t1 StoreOutcome.ok).response = Except.ok st.db.users := by
    rw [h1]
  have hget := truthy_get_fresh (json_dumps_users st.db.users)
    (t1 + CACHE_EXPIRY_SECONDS) t2 hfresh (json_dumps_users_ne_empty st.db.users)
  have hloads := loads_dumps st.db.users
  have h2 := list_users_hit
    ⟨st.db, ⟨some (json_dumps_users st.db.users, t1 + CACHE_EXPIRY_SECONDS)⟩⟩ t2 store2
    (json_dumps_users st.db.users) st.db.users hget hloads
  refine ⟨by rw [hstate]; exact hget, hloads, by rw [hstate, h2], ?_, ?_, ?_⟩
  · rw [hstate, h2, hresp1]
  · rw [hstate, h2]; simp
  · rw [hstate, h2]

theorem cache_hit_fidelity_witness :
    truthy_get (list_users stAnnNoCache 0 StoreOutcome.ok).state.cache 30 =
      some (json_dumps_users stAnnNoCache.db.users) ∧
    json_loads_users (json_dumps_users stAnnNoCache.db.users) =
      some stAnnNoCache.db.users ∧
    (list_users (list_users stAnnNoCache 0 StoreOutcome.ok).state 30
      StoreOutcome.unreachable).response = Except.ok stAnnNoCache.db.users ∧
    (list_users (list_users stAnnNoCache 0 StoreOutcome.ok).state 30
      StoreOutcome.unreachable).response =
      (list_users stAnnNoCache 0 StoreOutcome.ok).response ∧
    Event.dbSelectUsers ∉
      (list_users (list_users stAnnNoCache 0 StoreOutcome.ok).state 30
        StoreOutcome.unreachable).events ∧
    (list_users (list_users stAnnNoCache 0 StoreOutcome.ok).state 30
      StoreOutcome.unreachable).state =
      (list_users stAnnNoCache 0 StoreOutcome.ok).state :=
  cache_hit_fidelity stAnnNoCache 0 30 StoreOutcome.unreachable (by decide) (by decide)

/-- C10: when the user collection is empty, a ListUsers miss caches the
serialized empty sequence, which is the two-character string of an open
and a close bracket and hence truthy, so a later ListUsers call within
the TTL is a cache hit that returns the empty sequence without querying
the store: an empty snapshot is not mistaken for a miss. -/
theorem empty_collection_cache_hit (st : AppState) (t1 t2 : Nat) (store2 : StoreOutcome)
    (hempty : st.db.users = []) (hmiss : truthy_get st.cache t1 = none)
    (hfresh : t2 < t1 + CACHE_EXPIRY_SECONDS) :
    json_dumps_users st.db.users = "[]" ∧
    Event.cacheSet usersCacheKey "[]" CACHE_EXPIRY_SECONDS ∈
      (list_users st t1 StoreOutcome.ok).events ∧
    truthy_get (list_users st t1 StoreOutcome.ok).state.cache t2 = some "[]" ∧
    (list_users (list_users st t1 StoreOutcome.ok).state t2 store2).response =
      Except.ok [] ∧
    Event.dbSelectUsers ∉
      (list_users (list_users st t1 StoreOutcome.ok).state t2 store2).events := by
  have hd : json_dumps_users st.db.users = "[]" := by rw [hempty]; rfl
  have h1 := list_users_miss st t1 hmiss
  have hstate : (list_users st t1 StoreOutcome.ok).state =
      ⟨st.db, ⟨some ("[]", t1 + CACHE_EXPIRY_SECONDS)⟩⟩ := by
    rw [h1, hd]
  have hevs : (list_users st t1 StoreOutcome.ok).events =
      [Event.cacheGet usersCacheKey, Event.dbSelectUsers,
        Event.cacheSet usersCacheKey "[]" CACHE_EXPIRY_SECONDS] := by
    rw [h1, hd]
  have hget := truthy_get_fresh "[]" (t1 + CACHE_EXPIRY_SECONDS) t2 hfresh (by decide)
  have hloads : json_loads_users "[]" = some [] := rfl
  have h2 := list_users_hit ⟨st.db, ⟨some ("[]", t1 + CACHE_EXPIRY_SECONDS)⟩⟩ t2 store2
    "[]" [] hget hloads
  refine ⟨hd, by rw [hevs]; simp, by rw [hstate]; exact hget, by rw [hstate, h2], ?_⟩
  rw [hstate, h2]
  simp

theorem empty_collection_witness :
    json_dumps_users stEmptyCache.db.users = "[]" ∧
    Event.cacheSet usersCacheKey "[]" CACHE_EXPIRY_SECONDS ∈
      (list_users stEmptyCache 0 StoreOutcome.ok).events ∧
    truthy_get (list_users stEmptyCache 0 StoreOutcome.ok).state.cache 59 = some "[]" ∧
    (list_users (list_users stEmptyCache 0 StoreOutcome.ok).state 59
      StoreOutcome.unreachable).response = Except.ok [] ∧
    Event.dbSelectUsers ∉
      (list_users (list_users stEmptyCache 0 StoreOutcome.ok).state 59
        StoreOutcome.unreachable).events :=
  empty_collection_cache_hit stEmptyCache 0 59 StoreOutcome.unreachable (by decide)
    (by decide) (by decide)
